import Mathlib

/-!
Verification development for the Web_Content repository (bookmark store).

The repository contains two independent implementations of the bookmark
store:

* an SQLite-backed variant (`src/web_content_code.py`, and the
  near-identical `src/pages/add_link.py`): tables `links`, `tags`,
  `link_tags`, `embeddings`, with `save_link`, `delete_link`,
  `browse_section`, `search_section`, `delete_tag`;
* a pandas-DataFrame variant (`src/web_content_ai.py`): one row per link
  holding the tag list inline, with `save_link`, `browse_section`,
  `delete_selected_links`.

Both are embedded below.  SQLite rows are modelled as structures, tables
as lists in rowid (insertion) order, `AUTOINCREMENT` as an explicit
next-id counter (ids are never reused), timestamps as naturals, and the
float vectors handled by numpy/sklearn as lists of rationals.
-/

namespace WebContent

/-- A row of the `links` table (`id INTEGER PRIMARY KEY AUTOINCREMENT,
url TEXT UNIQUE, title TEXT, description TEXT, created_at, updated_at`). -/
structure LinkRow where
  id : Nat
  url : String
  title : String
  description : String
  created_at : Nat
  updated_at : Nat
deriving Repr, DecidableEq

/-- A row of the `tags` table (`id INTEGER PRIMARY KEY AUTOINCREMENT,
name TEXT UNIQUE`). -/
structure TagRow where
  id : Nat
  name : String
deriving Repr, DecidableEq

/-- An embedding vector, as stored (numpy float32 array); modelled over ℚ. -/
abbrev Emb := List ℚ

/-- The database state: the four tables, plus the `AUTOINCREMENT`
sequence counters for `links.id` and `tags.id` (SQLite assigns
max-used + 1 and never reuses ids of deleted rows).  `link_tags` rows are
`(link_id, tag_id)` pairs, `embeddings` rows are `(link_id, vector)`. -/
structure DB where
  links : List LinkRow
  tags : List TagRow
  link_tags : List (Nat × Nat)
  embeddings : List (Nat × Emb)
  nextLinkId : Nat
  nextTagId : Nat
deriving Repr, DecidableEq

/-- The state `init_db` produces: empty tables, autoincrement counters at 1. -/
def init_db : DB := ⟨[], [], [], [], 1, 1⟩

/-- `INSERT OR REPLACE INTO links (url, title, description, created_at,
updated_at) VALUES (?, ?, ?, now, now)`.  On a `UNIQUE(url)` conflict
SQLite deletes the conflicting row and inserts a fresh one; since `id` is
not supplied, `AUTOINCREMENT` assigns a new id either way.  Returns the
new state and `cursor.lastrowid` (the id of the inserted row). -/
def insertOrReplaceLinks (db : DB) (url title description : String) (now : Nat) :
    DB × Nat :=
  let newRow : LinkRow := ⟨db.nextLinkId, url, title, description, now, now⟩
  ({ db with
      links := db.links.filter (fun l => decide (l.url ≠ url)) ++ [newRow]
      nextLinkId := db.nextLinkId + 1 },
   db.nextLinkId)

/-- `SELECT id FROM links WHERE url = ?` (first row, as `fetchone`). -/
def getLinkByUrl (db : DB) (url : String) : Option LinkRow :=
  db.links.find? (fun l => decide (l.url = url))

/-- `SELECT * FROM links WHERE id = ?` / the spec's `get(link_id)`. -/
def getLink (db : DB) (lid : Nat) : Option LinkRow :=
  db.links.find? (fun l => decide (l.id = lid))

/-- `INSERT OR IGNORE INTO tags (name) VALUES (?)`: insert a fresh row
unless a row with that exact name exists (`UNIQUE(name)` conflict is
ignored). -/
def tagInsertOrIgnore (db : DB) (name : String) : DB :=
  if db.tags.any (fun t => decide (t.name = name)) then db
  else { db with
          tags := db.tags ++ [⟨db.nextTagId, name⟩]
          nextTagId := db.nextTagId + 1 }

/-- `SELECT id FROM tags WHERE name = ?` followed by `fetchone` (the whole
row here; `None` when no row matches). -/
def tagLookup (db : DB) (name : String) : Option TagRow :=
  db.tags.find? (fun t => decide (t.name = name))

/-- `INSERT OR IGNORE INTO link_tags (link_id, tag_id) VALUES (?, ?)`:
the composite primary key makes a duplicate pair a no-op. -/
def linkTagInsertOrIgnore (db : DB) (lid tid : Nat) : DB :=
  if db.link_tags.any (fun p => decide (p = (lid, tid))) then db
  else { db with link_tags := db.link_tags ++ [(lid, tid)] }

/-- The body of `save_link`'s tag loop, for one input tag name:
`INSERT OR IGNORE INTO tags`, then `SELECT id FROM tags WHERE name = ?`
(`fetchone()[0]`, modelled with a default of 0 for the absent case that
`c10` proves unreachable), then `INSERT OR IGNORE INTO link_tags`. -/
def processTag (db : DB) (lid : Nat) (tag : String) : DB :=
  let d1 := tagInsertOrIgnore db tag
  let tid := ((tagLookup d1 tag).map TagRow.id).getD 0
  linkTagInsertOrIgnore d1 lid tid

/-- `for tag in tags: ...` — the tag-processing loop of `save_link`. -/
def processTags (db : DB) (lid : Nat) : List String → DB
  | [] => db
  | tag :: rest => processTags (processTag db lid tag) lid rest

/-- `INSERT OR REPLACE INTO embeddings (link_id, embedding) VALUES (?, ?)`:
`link_id` is the primary key, so a conflicting row is replaced. -/
def embInsertOrReplace (db : DB) (lid : Nat) (v : Emb) : DB :=
  { db with
      embeddings := db.embeddings.filter (fun p => decide (p.1 ≠ lid)) ++ [(lid, v)] }

/-- `save_link(conn, model, url, title, description, tags)` from
`src/web_content_code.py` (the success path; the commit/rollback
behaviour is modelled separately on `Conn`).  `emb` is the output of
`model.encode(f"TITLE DESCRIPTION")` when a model is loaded (`none`
models `model = None`); the Store treats it as plain data.  The
`link_id` computation mirrors
`c.lastrowid if c.lastrowid else SELECT id FROM links WHERE url = ?`. -/
def save_link (db : DB) (url title description : String) (tags : List String)
    (now : Nat) (emb : Option Emb) : DB :=
  let ins := insertOrReplaceLinks db url title description now
  let link_id := if ins.2 ≠ 0 then ins.2
    else ((getLinkByUrl ins.1 url).map LinkRow.id).getD 0
  let db2 := processTags ins.1 link_id tags
  match emb with
  | some v => embInsertOrReplace db2 link_id v
  | none => db2

/-- `delete_link(conn, link_id)`: `DELETE FROM links WHERE id = ?`,
`DELETE FROM link_tags WHERE link_id = ?`,
`DELETE FROM embeddings WHERE link_id = ?`, then commit. -/
def delete_link (db : DB) (lid : Nat) : DB :=
  { db with
      links := db.links.filter (fun l => decide (l.id ≠ lid))
      link_tags := db.link_tags.filter (fun p => decide (p.1 ≠ lid))
      embeddings := db.embeddings.filter (fun p => decide (p.1 ≠ lid)) }

/-- `delete_tag(conn, tag_name)`: `DELETE FROM tags WHERE name = ?`, then
commit.  Note the function issues no other statement. -/
def delete_tag (db : DB) (name : String) : DB :=
  { db with tags := db.tags.filter (fun t => decide (t.name ≠ name)) }

/-- The referential invariant for tag associations (spec §3): every
`tag_id` appearing in `link_tags` references an existing `tags` row. -/
def tagRefOk (db : DB) : Prop :=
  ∀ p ∈ db.link_tags, ∃ t ∈ db.tags, t.id = p.2

instance (db : DB) : Decidable (tagRefOk db) := by
  unfold tagRefOk; infer_instance

/-- The link `lid` carries tag `name`: a `tags` row with that exact name
exists and is associated to `lid` in `link_tags`. -/
def carriesTag (db : DB) (lid : Nat) (name : String) : Prop :=
  ∃ t ∈ db.tags, t.name = name ∧ (lid, t.id) ∈ db.link_tags

instance (db : DB) (lid : Nat) (name : String) : Decidable (carriesTag db lid name) := by
  unfold carriesTag; infer_instance

/-- Table invariants maintained by SQLite for the `tags` table:
`AUTOINCREMENT` keeps every id below the sequence counter, and the
integer primary key keeps ids distinct. -/
structure TagWF (db : DB) : Prop where
  idsLt : ∀ t ∈ db.tags, t.id < db.nextTagId
  idsNodup : (db.tags.map TagRow.id).Nodup

/-! ### Substring matching (SQL `LIKE '%q%'` and Python `in`) -/

/-- ASCII lower-casing of one character (SQLite's `LIKE` folds exactly
ASCII; Python's `str.lower` agrees on the ASCII inputs this app sees). -/
def asciiLower (c : Char) : Char :=
  if 'A' ≤ c ∧ c ≤ 'Z' then Char.ofNat (c.toNat + 32) else c

/-- ASCII whitespace (the whitespace `str.strip` removes, restricted to
the ASCII range). -/
def charWS (c : Char) : Bool :=
  decide (c = ' ') || decide (c = '\t') || decide (c = '\n') || decide (c = '\r')

/-- Drop leading and trailing whitespace from a character list. -/
def stripChars (l : List Char) : List Char :=
  ((l.dropWhile charWS).reverse.dropWhile charWS).reverse

/-- Python `str.strip()`. -/
def pyStrip (s : String) : String := ⟨stripChars s.toList⟩

/-- Lower-case a string characterwise. -/
def lowerStr (s : String) : String := ⟨s.toList.map asciiLower⟩

/-- Character-list version of "pat is a prefix of the text". -/
def startsWithChars : List Char → List Char → Bool
  | [], _ => true
  | _ :: _, [] => false
  | a :: as, b :: bs => decide (a = b) && startsWithChars as bs

/-- Character-list version of "pat occurs contiguously in the text". -/
def hasSubChars (pat : List Char) : List Char → Bool
  | [] => pat.isEmpty
  | c :: ts => startsWithChars pat (c :: ts) || hasSubChars pat ts

/-- Python's `sub in s` substring test. -/
def pyContains (s sub : String) : Bool :=
  hasSubChars sub.toList s.toList

/-- SQL `s LIKE '%pat%'`: substring match, case-insensitive (SQLite folds
case for the pattern and the text; `%`/`_` wildcards inside the query
text itself are not modelled). -/
def likeMatch (s pat : String) : Bool :=
  hasSubChars (lowerStr pat).toList (lowerStr s).toList

/-! ### Stable sorting (Python `list.sort`, Timsort, is stable) -/

/-- One insertion step of a stable descending insertion sort: `x` is
placed before the first element not strictly greater than it, so equal
elements keep their original relative order, exactly as Python's stable
`list.sort(key=..., reverse=True)` orders them. -/
def insStep (gt : α → α → Bool) (x : α) : List α → List α
  | [] => [x]
  | y :: ys => if gt y x then y :: insStep gt x ys else x :: y :: ys

/-- Stable sort placing greater elements (per `gt`) first. -/
def insSort (gt : α → α → Bool) : List α → List α
  | [] => []
  | x :: xs => insStep gt x (insSort gt xs)

/-! ### Search (`search_section` of `src/web_content_code.py`) -/

/-- The Keyword branch: `SELECT id, url, title, description FROM links
WHERE title LIKE ? OR description LIKE ?` with `%query%` patterns. -/
def keyword_search (db : DB) (q : String) : List (Nat × String × String × String) :=
  (db.links.filter (fun l => likeMatch l.title q || likeMatch l.description q)).map
    (fun l => (l.id, l.url, l.title, l.description))

/-- `SELECT embedding FROM embeddings WHERE link_id = ?` (via the join). -/
def lookupEmb (db : DB) (lid : Nat) : Option Emb :=
  (db.embeddings.find? (fun p => decide (p.1 = lid))).map Prod.snd

/-- `SELECT l.id, ..., e.embedding FROM links l JOIN embeddings e ON
l.id = e.link_id`: links without a stored embedding produce no join row.
Rows come in the base table scan order. -/
def joinEmb (db : DB) : List (Nat × Emb) :=
  db.links.filterMap (fun l => (lookupEmb db l.id).map (fun v => (l.id, v)))

/-- Scalar product of two stored vectors. -/
def dot : Emb → Emb → ℚ
  | [], _ => 0
  | _, [] => 0
  | a :: as, b :: bs => a * b + dot as bs

/-- Squared Euclidean norm. -/
def normSq (v : Emb) : ℚ := dot v v

/-- The sort key of the Semantic branch.  The code sorts by
`cosine_similarity(q, v) = dot q v / (‖q‖ * ‖v‖)`; for a fixed query `q`
that float is ordered exactly like
`sign(dot q v) * (dot q v)^2 / ‖v‖^2` (drop the constant positive factor
`‖q‖^2` and apply the strictly monotone map `x ↦ sign x * x^2`), which is
rational-valued until its square root would be taken, so the comparisons
the sort performs are represented exactly.  A zero stored vector gets key
0 (division by zero is 0 in Lean), matching sklearn's 0 score for a zero
vector. -/
def simKey (qv v : Emb) : ℚ :=
  let d := dot qv v
  (if 0 ≤ d then d * d else -(d * d)) / normSq v

/-- `results.sort(key=lambda x: similarity, reverse=True)`: stable
descending sort of the candidate rows by similarity to the query. -/
def rank_by_similarity (qv : Emb) (cands : List (Nat × Emb)) : List (Nat × Emb) :=
  insSort (fun a b => decide (simKey qv a.2 > simKey qv b.2)) cands

/-- The Semantic branch of `search_section`: join links with embeddings,
score each row against the query vector, sort descending. -/
def semantic_search (db : DB) (qv : Emb) : List (Nat × Emb) :=
  rank_by_similarity qv (joinEmb db)

/-! ### Browse (`browse_section` of `src/web_content_code.py`) -/

/-- The distinct tag names among the browse filter `sel` that link `lid`
carries; its length is the join's `COUNT(DISTINCT t.name)` for the
group of `lid`. -/
def matchedNames (db : DB) (lid : Nat) (sel : List String) : List String :=
  ((db.tags.filter (fun t =>
      decide (t.name ∈ sel) && decide ((lid, t.id) ∈ db.link_tags))).map TagRow.name).dedup

/-- `HAVING COUNT(DISTINCT t.name) = len(selected_tags)` for one link. -/
def browsePred (db : DB) (sel : List String) (l : LinkRow) : Bool :=
  decide ((matchedNames db l.id sel).length = sel.length)

/-- `browse_section`'s query: all links, joined/filtered by the selected
tags when any are selected, `ORDER BY created_at DESC`.  A link with no
matching join row never reaches `GROUP BY`, and for a nonempty filter it
also fails the `HAVING` count, so filtering on the count alone is the
same result set. -/
def browse_section (db : DB) (sel : List String) : List LinkRow :=
  let base := if sel.isEmpty then db.links else db.links.filter (browsePred db sel)
  insSort (fun a b => decide (a.created_at > b.created_at)) base

/-! ### Connection and transaction model (`sqlite3` semantics)

A Python `sqlite3` connection autocommits nothing: the first data
statement opens an implicit transaction, `conn.commit()` publishes it,
and a connection closed (or garbage-collected — each Streamlit rerun
calls `init_db()` afresh) without `commit` discards it.  Reads on the
same connection see the pending transaction; any other/new connection
sees only the committed state.  `save_link` wraps everything in
`try/except`: an exception at any step is caught, an error is shown, and
the single final `conn.commit()` is skipped — no explicit rollback is
issued, but nothing later reads or commits that connection (the script
run ends and the next interaction opens a fresh connection). -/

/-- A connection: the durable committed state and the pending state the
connection itself observes. -/
structure Conn where
  committed : DB
  pending : DB
deriving Repr, DecidableEq

/-- Fresh connection over a committed database. -/
def openConn (db : DB) : Conn := ⟨db, db⟩

/-- Closing (or dropping) a connection without commit discards the
pending transaction; the durable state is what was committed. -/
def closeConn (c : Conn) : DB := c.committed

/-- `conn.commit()`. -/
def commitConn (c : Conn) : Conn := ⟨c.pending, c.pending⟩

/-- Injected failure points inside `save_link`: the initial
`INSERT OR REPLACE` itself fails (a failed statement has no effect), the
tag loop raises after `k` tags were processed, or `model.encode` /
the embedding insert raises. -/
inductive SaveFault where
  | atLinkInsert
  | atTags (k : Nat)
  | atEmbed
deriving Repr, DecidableEq

/-- `save_link` as run against a connection, with an optional injected
fault.  On any fault the exception is caught (`except` branch): the call
reports failure, no commit happens, and whatever sub-steps already ran
stay only in the pending transaction.  Without a fault all steps run and
the single `conn.commit()` publishes them. -/
def save_link_conn (c : Conn) (url title description : String) (tags : List String)
    (now : Nat) (emb : Option Emb) (fault : Option SaveFault) : Conn × Bool :=
  match fault with
  | some .atLinkInsert => (c, false)
  | some (.atTags k) =>
      let ins := insertOrReplaceLinks c.pending url title description now
      let lid := if ins.2 ≠ 0 then ins.2
        else ((getLinkByUrl ins.1 url).map LinkRow.id).getD 0
      ({ c with pending := processTags ins.1 lid (tags.take k) }, false)
  | some .atEmbed =>
      let ins := insertOrReplaceLinks c.pending url title description now
      let lid := if ins.2 ≠ 0 then ins.2
        else ((getLinkByUrl ins.1 url).map LinkRow.id).getD 0
      ({ c with pending := processTags ins.1 lid tags }, false)
  | none =>
      (commitConn { c with pending := save_link c.pending url title description tags now emb },
       true)

/-! ### The DataFrame variant (`src/web_content_ai.py`) -/

/-- One DataFrame row: a link with its tag list inline. -/
structure Entry where
  id : Nat
  url : String
  title : String
  description : String
  tags : List String
  created_at : Nat
  updated_at : Nat
  source : String
deriving Repr, DecidableEq

/-- `[str(tag).strip() for tag in tags if str(tag).strip()]`: trim each
tag, drop the ones that are empty after trimming. -/
def cleanTags (tags : List String) : List String :=
  (tags.filter (fun t => decide (pyStrip t ≠ ""))).map pyStrip

/-- Apply `f` to the first element satisfying `p` (pandas
`df[df['url'] == url].index` followed by `df.at[idx, ...] = ...` updates
exactly the first matching row); reports whether a match was found. -/
def updateFirst (p : α → Bool) (f : α → α) : List α → List α × Bool
  | [] => ([], false)
  | x :: xs =>
      if p x then (f x :: xs, true)
      else (x :: (updateFirst p f xs).1, (updateFirst p f xs).2)

/-- `save_link(df, url, title, description, tags, source)` from
`src/web_content_ai.py`: update the first row with this `url` in place
(keeping `id` and `created_at`), else append a fresh row with
`id = df['id'].max() + 1` (1 on an empty frame); returns the new frame
and the reported action (`"updated"` / `"saved"`). -/
def save_link_ai (df : List Entry) (url title description : String)
    (tags : List String) (source : String) (now : Nat) : List Entry × String :=
  let clean := cleanTags tags
  let desc := if description = "" then "" else description
  let upd := updateFirst (fun e => decide (e.url = url))
    (fun e => { e with title := title, description := desc, tags := clean,
                       updated_at := now, source := source }) df
  if upd.2 then (upd.1, "updated")
  else
    let newId := if df.isEmpty then 1 else (df.map Entry.id).foldl max 0 + 1
    (df ++ [⟨newId, url, title, desc, clean, now, now, source⟩], "saved")

/-- The free-text filter of the DataFrame `browse_section`: keep rows
whose lowercased title, url, description, or some tag contains the
lowercased query as a substring. -/
def aiSearchFilter (df : List Entry) (q : String) : List Entry :=
  let ql := lowerStr q
  df.filter (fun e =>
    pyContains (lowerStr e.title) ql || pyContains (lowerStr e.url) ql ||
    pyContains (lowerStr e.description) ql ||
    e.tags.any (fun t => pyContains (lowerStr t) ql))

/-- The tag filter of the DataFrame `browse_section`
(`any(str(tag) in map(str, x) for tag in selected_tags)`): applied only
when some tags are selected, and keeps a row when it carries at least
one selected tag. -/
def aiTagFilter (df : List Entry) (sel : List String) : List Entry :=
  if sel.isEmpty then df
  else df.filter (fun e => sel.any (fun t => decide (t ∈ e.tags)))

/-! ### Concrete stores used by counterexamples and witnesses -/

/-- A store holding a single saved link. -/
def dbOneLink : DB := ⟨[⟨1, "https://a", "T", "D", 0, 0⟩], [], [], [], 2, 1⟩

/-- A store with one tagged link: tag `x` (id 1) associated to link 1. -/
def dbC8 : DB := ⟨[⟨1, "https://a", "T", "D", 0, 0⟩], [⟨1, "x"⟩], [(1, 1)], [], 2, 2⟩

/-- A store with one link tagged `python` for the tag-replacement witness. -/
def dbC4 : DB :=
  ⟨[⟨1, "https://x", "T", "D", 0, 0⟩], [⟨1, "python"⟩], [(1, 1)], [], 2, 2⟩

/-- The spec §8 similarity example: stored vectors `v1=[1,0]` (link 1),
`v2=[0,1]` (link 2), `v3=[0.9,0.1]` (link 3), plus link 4 with no stored
vector. -/
def dbC7 : DB :=
  ⟨[⟨1, "https://v1", "V1", "", 0, 0⟩, ⟨2, "https://v2", "V2", "", 0, 0⟩,
    ⟨3, "https://v3", "V3", "", 0, 0⟩, ⟨4, "https://v4", "V4", "", 0, 0⟩],
   [], [],
   [(1, [1, 0]), (2, [0, 1]), (3, [9/10, 1/10])],
   5, 1⟩

/-- A one-row DataFrame whose link is tagged `python` and `tutorial`. -/
def dfC5 : List Entry :=
  [⟨1, "https://p", "P", "", ["python", "tutorial"], 0, 0, "User"⟩]

/-! ## Helper lemmas -/

theorem hasSubChars_nil_pat : ∀ l : List Char, hasSubChars [] l = true
  | [] => rfl
  | _ :: _ => by simp [hasSubChars, startsWithChars]

theorem lowerStr_empty : lowerStr "" = "" := by decide

theorem likeMatch_empty_pat (s : String) : likeMatch s "" = true := by
  unfold likeMatch
  rw [lowerStr_empty]
  exact hasSubChars_nil_pat _

theorem pyContains_empty_pat (s : String) : pyContains s "" = true :=
  hasSubChars_nil_pat _

theorem mem_insStep {gt : α → α → Bool} {x a : α} :
    ∀ {l : List α}, a ∈ insStep gt x l ↔ a = x ∨ a ∈ l
  | [] => by simp [insStep]
  | y :: ys => by
    unfold insStep
    by_cases h : gt y x = true
    · rw [if_pos h, List.mem_cons, mem_insStep (l := ys), List.mem_cons]
      tauto
    · rw [if_neg h, List.mem_cons, List.mem_cons]

theorem insStep_perm (gt : α → α → Bool) (x : α) :
    ∀ l : List α, List.Perm (insStep gt x l) (x :: l)
  | [] => List.Perm.refl _
  | y :: ys => by
    unfold insStep
    by_cases h : gt y x = true
    · rw [if_pos h]
      exact ((insStep_perm gt x ys).cons y).trans (List.Perm.swap x y ys)
    · rw [if_neg h]

theorem insSort_perm (gt : α → α → Bool) : ∀ l : List α, List.Perm (insSort gt l) l
  | [] => List.Perm.refl _
  | x :: xs => (insStep_perm gt x (insSort gt xs)).trans ((insSort_perm gt xs).cons x)

theorem insStep_pairwise (k : α → ℚ) (idx : α → Nat) (x : α) :
    ∀ l : List α,
      l.Pairwise (fun a b => k a > k b ∨ (k a = k b ∧ idx a < idx b)) →
      (∀ z ∈ l, idx x < idx z) →
      (insStep (fun a b => decide (k a > k b)) x l).Pairwise
        (fun a b => k a > k b ∨ (k a = k b ∧ idx a < idx b))
  | [], _, _ => by simp [insStep]
  | y :: ys, hl, hid => by
    rw [List.pairwise_cons] at hl
    obtain ⟨hy, hys⟩ := hl
    unfold insStep
    by_cases h : k y > k x
    · rw [if_pos (by simpa using h)]
      rw [List.pairwise_cons]
      refine ⟨?_, insStep_pairwise k idx x ys hys
        (fun z hz => hid z (List.mem_cons_of_mem _ hz))⟩
      intro z hz
      rcases mem_insStep.mp hz with rfl | hz'
      · exact Or.inl h
      · exact hy z hz'
    · rw [if_neg (by simpa using h)]
      rw [List.pairwise_cons]
      refine ⟨?_, List.pairwise_cons.mpr ⟨hy, hys⟩⟩
      intro z hz
      have hzy : k z ≤ k y := by
        rcases List.mem_cons.mp hz with rfl | hz'
        · exact le_refl _
        · rcases hy z hz' with hlt | ⟨heq, _⟩
          · exact le_of_lt hlt
          · exact le_of_eq heq.symm
      have hzx : k z ≤ k x := le_trans hzy (le_of_not_lt h)
      rcases lt_or_eq_of_le hzx with hlt | heq
      · exact Or.inl hlt
      · exact Or.inr ⟨heq.symm, hid z hz⟩

theorem insSort_pairwise (k : α → ℚ) (idx : α → Nat) :
    ∀ l : List α, l.Pairwise (fun a b => idx a < idx b) →
      (insSort (fun a b => decide (k a > k b)) l).Pairwise
        (fun a b => k a > k b ∨ (k a = k b ∧ idx a < idx b))
  | [], _ => by simp [insSort]
  | x :: xs, hl => by
    rw [List.pairwise_cons] at hl
    exact insStep_pairwise k idx x _ (insSort_pairwise k idx xs hl.2)
      (fun z hz => hl.1 z ((insSort_perm _ xs).mem_iff.mp hz))

theorem tagLookup_tagInsertOrIgnore (db : DB) (name : String) :
    ∃ t, tagLookup (tagInsertOrIgnore db name) name = some t ∧ t.name = name := by
  unfold tagInsertOrIgnore tagLookup
  by_cases h : db.tags.any (fun t => decide (t.name = name)) = true
  · rw [if_pos h]
    obtain ⟨t, ht, hts⟩ := List.any_eq_true.mp h
    have hs : (db.tags.find? fun t => decide (t.name = name)).isSome :=
      List.find?_isSome.mpr ⟨t, ht, hts⟩
    obtain ⟨t', ht'⟩ := Option.isSome_iff_exists.mp hs
    exact ⟨t', ht', by simpa using List.find?_some ht'⟩
  · rw [if_neg h]
    refine ⟨⟨db.nextTagId, name⟩, ?_, rfl⟩
    rw [List.find?_append]
    have hn : (db.tags.find? fun t => decide (t.name = name)) = none := by
      rw [List.find?_eq_none]
      intro t ht hts
      exact h (List.any_eq_true.mpr ⟨t, ht, hts⟩)
    rw [hn]
    simp [List.find?]

/-! ## Claim theorems (with counterexamples and witnesses) -/

/-- C1 (code bug, evaluated at the failing input): in the SQLite variant,
saving the same url twice leaves exactly one `links` row, but
`INSERT OR REPLACE` deletes the old row and re-inserts, so the surviving
row has a fresh autoincrement id (2, not 1) and its `created_at` is reset
to the second call's time — the claim requires the id and `created_at` of
the first insert to survive, and an `action = updated` report, which this
variant never produces. -/
theorem c1_save_rekeys_existing_url :
    ((save_link init_db "https://a" "T" "D" [] 0 none).links.map
        (fun l => (l.id, l.created_at, l.url)) = [(1, 0, "https://a")]) ∧
    ((save_link (save_link init_db "https://a" "T" "D" [] 0 none)
        "https://a" "T" "D" [] 5 none).links.map
        (fun l => (l.id, l.created_at, l.url)) = [(2, 5, "https://a")]) := by
  decide

/-- C2: whichever step of `save_link` fails, the exception is caught, the
call reports failure, and the single final `conn.commit()` is skipped, so
the committed store — the state any later connection observes — is exactly
the state before the call; partial sub-step effects die with the
connection's pending transaction at close. -/
theorem c2_failed_save_leaves_store_unchanged :
    ∀ (db : DB) (url title description : String) (tags : List String) (now : Nat)
      (emb : Option Emb) (f : SaveFault),
      closeConn (save_link_conn (openConn db) url title description tags now emb (some f)).1
          = db ∧
      (save_link_conn (openConn db) url title description tags now emb (some f)).1.committed
          = db ∧
      (save_link_conn (openConn db) url title description tags now emb (some f)).2 = false := by
  intro db url title description tags now emb f
  cases f <;> exact ⟨rfl, rfl, rfl⟩

/-- C3: `delete_link` removes every `link_tags` row and every `embeddings`
row whose `link_id` is the deleted id, and a lookup of the deleted id
returns absent. -/
theorem c3_cascade_delete :
    ∀ (db : DB) (lid : Nat),
      (∀ p ∈ (delete_link db lid).link_tags, p.1 ≠ lid) ∧
      (∀ p ∈ (delete_link db lid).embeddings, p.1 ≠ lid) ∧
      getLink (delete_link db lid) lid = none := by
  intro db lid
  refine ⟨?_, ?_, ?_⟩
  · intro p hp
    have := List.of_mem_filter hp
    simpa using this
  · intro p hp
    have := List.of_mem_filter hp
    simpa using this
  · rw [getLink, List.find?_eq_none]
    intro l hl
    have := List.of_mem_filter hl
    simpa using this

/-- C10: inside `save_link`'s tag loop, the
`SELECT id FROM tags WHERE name = ?` that runs right after
`INSERT OR IGNORE INTO tags (name)` always finds a row with that exact
name (the insert either created it or was ignored because it already
existed), so `fetchone()[0]` never hits the absent branch. -/
theorem c10_tag_lookup_total :
    ∀ (db : DB) (name : String),
      ∃ t, tagLookup (tagInsertOrIgnore db name) name = some t ∧ t.name = name :=
  tagLookup_tagInsertOrIgnore

/-- C6 (counterexample): on a store holding one link, the SQLite keyword
search with the empty query returns that link (the `LIKE '%%'` pattern
matches every row), and the DataFrame browse filter with the empty query
keeps its row as well — the claim says an empty query returns the empty
sequence. -/
theorem c6_cex_empty_query_matches :
    keyword_search dbOneLink "" = [(1, "https://a", "T", "D")] ∧
    aiSearchFilter dfC5 "" = dfC5 := by
  decide

/-- C6 (amended): an empty query string matches everything, not nothing —
the SQLite keyword search returns every link (its UI merely disables the
Search button for an empty query), the DataFrame browse filter keeps
every row, and the semantic branch ranks all embedded links whatever the
query vector is, so it also never returns the empty sequence just
because the query was empty. -/
theorem c6_empty_query_amended :
    (∀ db : DB, keyword_search db "" =
        db.links.map (fun l => (l.id, l.url, l.title, l.description))) ∧
    (∀ df : List Entry, aiSearchFilter df "" = df) ∧
    (∀ (db : DB) (qv : Emb),
        List.Perm ((semantic_search db qv).map Prod.fst) ((joinEmb db).map Prod.fst)) := by
  refine ⟨?_, ?_, ?_⟩
  · intro db
    unfold keyword_search
    have : db.links.filter (fun l => likeMatch l.title "" || likeMatch l.description "") =
        db.links := by
      rw [List.filter_eq_self]
      intro l _
      rw [likeMatch_empty_pat]
      rfl
    rw [this]
  · intro df
    unfold aiSearchFilter
    rw [List.filter_eq_self]
    intro e _
    rw [lowerStr_empty, pyContains_empty_pat]
    rfl
  · intro db qv
    exact (insSort_perm _ (joinEmb db)).map Prod.fst

/-- C8 (counterexample): deleting tag `x` (id 1) from a store where link 1
carries it removes the `tags` row but leaves the `link_tags` row `(1, 1)`
behind, so an association referencing the deleted tag id remains and the
referential invariant is broken — the claim says every association
referencing the tag is removed and the invariant preserved. -/
theorem c8_cex_delete_tag_dangling :
    (delete_tag dbC8 "x").tags = [] ∧
    (delete_tag dbC8 "x").link_tags = [(1, 1)] ∧
    ¬ tagRefOk (delete_tag dbC8 "x") := by
  decide

/-- C8 (amended): `delete_tag` issues only `DELETE FROM tags WHERE
name = ?`: it removes exactly the `tags` rows with that name, leaves
`links` and `link_tags` untouched, and therefore — whenever some
association referenced the deleted tag — leaves a dangling `link_tags`
row, breaking the referential invariant instead of preserving it. -/
theorem c8_delete_tag_amended :
    (∀ (db : DB) (name : String),
        (delete_tag db name).links = db.links ∧
        (delete_tag db name).link_tags = db.link_tags ∧
        (∀ t ∈ (delete_tag db name).tags, t.name ≠ name ∧ t ∈ db.tags) ∧
        (∀ t ∈ db.tags, t.name ≠ name → t ∈ (delete_tag db name).tags)) ∧
    (∀ (db : DB) (name : String) (p : Nat × Nat) (t : TagRow),
        (db.tags.map TagRow.id).Nodup → p ∈ db.link_tags → t ∈ db.tags →
        t.name = name → t.id = p.2 →
        ¬ tagRefOk (delete_tag db name)) := by
  constructor
  · intro db name
    refine ⟨rfl, rfl, ?_, ?_⟩
    · intro t ht
      obtain ⟨htm, htp⟩ := List.mem_filter.mp ht
      exact ⟨by simpa using htp, htm⟩
    · intro t ht hne
      exact List.mem_filter.mpr ⟨ht, by simpa using hne⟩
  · intro db name p t hnd hp ht hname hid hok
    obtain ⟨t', ht', hid'⟩ := hok p hp
    obtain ⟨htm', htp'⟩ := List.mem_filter.mp ht'
    have : t' = t := List.inj_on_of_nodup_map hnd htm' ht (by rw [hid', hid])
    rw [this] at htp'
    rw [hname] at htp'
    simp at htp'

/-- C8 (witness): the amended theorem applied to the concrete one-link,
one-tag store: `delete_tag` leaves `links`/`link_tags` untouched and
removes the `x` row, and since link 1 referenced tag 1, the invariant is
broken afterwards. -/
theorem c8_witness :
    ((delete_tag dbC8 "x").links = dbC8.links ∧
     (delete_tag dbC8 "x").link_tags = dbC8.link_tags ∧
     (∀ t ∈ (delete_tag dbC8 "x").tags, t.name ≠ "x" ∧ t ∈ dbC8.tags) ∧
     (∀ t ∈ dbC8.tags, t.name ≠ "x" → t ∈ (delete_tag dbC8 "x").tags)) ∧
    ¬ tagRefOk (delete_tag dbC8 "x") :=
  ⟨c8_delete_tag_amended.1 dbC8 "x",
   c8_delete_tag_amended.2 dbC8 "x" (1, 1) ⟨1, "x"⟩ (by decide) (by decide) (by decide)
     (by decide) (by decide)⟩

/-- C9 (counterexample): the SQLite `save_link` performs no trimming or
validation of tag names: saving with the whitespace-only tag name
produces a `tags` row holding that name verbatim and links it — the
claim says a whitespace-only name never produces a Tag row or an
association. -/
theorem c9_cex_blank_tag_row :
    (save_link init_db "https://a" "T" "D" ["   "] 0 none).tags = [⟨1, "   "⟩] ∧
    (save_link init_db "https://a" "T" "D" ["   "] 0 none).link_tags = [(1, 1)] := by
  decide

theorem updateFirst_found (p : α → Bool) (f : α → α) :
    ∀ l : List α, (updateFirst p f l).2 = true →
      ∃ x ∈ l, p x = true ∧ f x ∈ (updateFirst p f l).1
  | [], h => by simp [updateFirst] at h
  | x :: xs, h => by
    unfold updateFirst at h ⊢
    by_cases hp : p x = true
    · rw [if_pos hp] at h ⊢
      exact ⟨x, List.mem_cons_self _ _, hp, List.mem_cons_self _ _⟩
    · rw [if_neg hp] at h ⊢
      obtain ⟨y, hy, hpy, hfy⟩ := updateFirst_found p f xs h
      exact ⟨y, List.mem_cons_of_mem _ hy, hpy, List.mem_cons_of_mem _ hfy⟩

/-- C9 (amended): tag-name normalization lives only in the DataFrame
variant — its `save_link` stores `[str(tag).strip() for tag in tags if
str(tag).strip()]`, so the affected row's tag list is exactly the
trimmed input names with empty/whitespace-only names dropped; the SQLite
variant stores every supplied name verbatim (there is no `ensure_tag`
validation: even a blank name becomes a Tag row, as the counterexample
shows). -/
theorem c9_blank_tags_amended :
    (∀ (df : List Entry) (url title description : String) (tags : List String)
        (source : String) (now : Nat),
        ∃ e ∈ (save_link_ai df url title description tags source now).1,
          e.url = url ∧ e.tags = cleanTags tags) ∧
    (∀ (tags : List String) (x : String), x ∈ cleanTags tags →
        x ≠ "" ∧ ∃ t ∈ tags, x = pyStrip t) ∧
    (∀ (db : DB) (name : String), ∃ t ∈ (tagInsertOrIgnore db name).tags, t.name = name) := by
  refine ⟨?_, ?_, ?_⟩
  · intro df url title description tags source now
    unfold save_link_ai
    by_cases h : (updateFirst (fun e => decide (e.url = url))
        (fun e => { e with title := title,
                           description := if description = "" then "" else description,
                           tags := cleanTags tags, updated_at := now, source := source }) df).2 = true
    · rw [if_pos h]
      obtain ⟨x, _, hpx, hfx⟩ := updateFirst_found _ _ df h
      refine ⟨_, hfx, ?_, rfl⟩
      simpa using hpx
    · rw [if_neg h]
      exact ⟨_, List.mem_append_right _ (List.mem_singleton_self _), rfl, rfl⟩
  · intro tags x hx
    obtain ⟨t, ht, rfl⟩ := List.mem_map.mp hx
    obtain ⟨htm, htp⟩ := List.mem_filter.mp ht
    exact ⟨by simpa using htp, t, htm, rfl⟩
  · intro db name
    obtain ⟨t, ht, hname⟩ := tagLookup_tagInsertOrIgnore db name
    exact ⟨t, List.mem_of_find?_eq_some ht, hname⟩

/-- C9 (witness): the amended theorem at concrete inputs — saving into an
empty DataFrame with tags `["  ", " x "]` yields a row whose tags are
exactly `cleanTags ["  ", " x "] = ["x"]`; the membership fact for `"x"`
gives a nonblank trimmed source tag; and the SQLite tag insert stores the
blank name `"   "` verbatim. -/
theorem c9_witness :
    (∃ e ∈ (save_link_ai [] "https://a" "T" "D" ["  ", " x "] "User" 0).1,
        e.url = "https://a" ∧ e.tags = cleanTags ["  ", " x "]) ∧
    ("x" ≠ "" ∧ ∃ t ∈ ["  ", " x "], "x" = pyStrip t) ∧
    (∃ t ∈ (tagInsertOrIgnore init_db "   ").tags, t.name = "   ") :=
  ⟨c9_blank_tags_amended.1 [] "https://a" "T" "D" ["  ", " x "] "User" 0,
   c9_blank_tags_amended.2.1 ["  ", " x "] "x" (by decide),
   c9_blank_tags_amended.2.2 init_db "   "⟩

/-- C5 (counterexample): in the DataFrame variant, the link tagged
`python, tutorial` passes the tag filter `["python", "news"]` even though
it does not carry `news` — the claim requires AND semantics (a link
appears only if it carries every filter tag). -/
theorem c5_cex_or_tag_filter :
    aiTagFilter dfC5 ["python", "news"] = dfC5 ∧ ∀ e ∈ dfC5, "news" ∉ e.tags := by
  decide

theorem mem_matchedNames {db : DB} {lid : Nat} {sel : List String} {name : String} :
    name ∈ matchedNames db lid sel ↔ name ∈ sel ∧ carriesTag db lid name := by
  unfold matchedNames carriesTag
  rw [List.mem_dedup]
  constructor
  · intro h
    obtain ⟨t, ht, rfl⟩ := List.mem_map.mp h
    obtain ⟨htm, htp⟩ := List.mem_filter.mp ht
    rw [Bool.and_eq_true, decide_eq_true_eq, decide_eq_true_eq] at htp
    exact ⟨htp.1, t, htm, rfl, htp.2⟩
  · rintro ⟨hsel, t, htm, hnm, hpair⟩
    refine List.mem_map.mpr ⟨t, List.mem_filter.mpr ⟨htm, ?_⟩, hnm⟩
    rw [Bool.and_eq_true, decide_eq_true_eq, decide_eq_true_eq]
    exact ⟨by rw [hnm]; exact hsel, hpair⟩

theorem browsePred_iff {db : DB} {sel : List String} {l : LinkRow} (hnd : sel.Nodup) :
    browsePred db sel l = true ↔ ∀ name ∈ sel, carriesTag db l.id name := by
  unfold browsePred
  rw [decide_eq_true_eq]
  have hmn : (matchedNames db l.id sel).Nodup := List.nodup_dedup _
  have hsub : matchedNames db l.id sel ⊆ sel := fun x hx => (mem_matchedNames.mp hx).1
  constructor
  · intro hlen name hname
    have hperm := (hmn.subperm hsub).perm_of_length_le (le_of_eq hlen.symm)
    exact (mem_matchedNames.mp (hperm.mem_iff.mpr hname)).2
  · intro hall
    have hsub2 : sel ⊆ matchedNames db l.id sel :=
      fun x hx => mem_matchedNames.mpr ⟨hx, hall x hx⟩
    exact le_antisymm (hmn.subperm hsub).length_le (hnd.subperm hsub2).length_le

/-- C5 (amended): the two variants disagree.  The SQLite `browse_section`
query (`WHERE t.name IN (...) GROUP BY l.id HAVING COUNT(DISTINCT
t.name) = n`) implements AND semantics: with a duplicate-free nonempty
filter, a link is returned iff it carries every selected tag.  The
DataFrame variant's tag filter implements OR semantics: a row is kept
iff it carries at least one selected tag, so the claim's
`["python", "news"]` example wrongly matches there. -/
theorem c5_and_or_semantics :
    (∀ (db : DB) (sel : List String) (l : LinkRow), sel.Nodup → sel ≠ [] →
        (l ∈ browse_section db sel ↔
          l ∈ db.links ∧ ∀ name ∈ sel, carriesTag db l.id name)) ∧
    (∀ (df : List Entry) (sel : List String) (e : Entry), sel ≠ [] →
        (e ∈ aiTagFilter df sel ↔ e ∈ df ∧ ∃ t ∈ sel, t ∈ e.tags)) := by
  constructor
  · intro db sel l hnd hne
    unfold browse_section
    rw [(insSort_perm _ _).mem_iff]
    have hie : sel.isEmpty = false := by
      cases sel
      · exact absurd rfl hne
      · rfl
    rw [hie]
    simp only [Bool.false_eq_true, if_false]
    rw [List.mem_filter, browsePred_iff hnd]
  · intro df sel e hne
    unfold aiTagFilter
    have hie : sel.isEmpty = false := by
      cases sel
      · exact absurd rfl hne
      · rfl
    rw [hie]
    simp only [Bool.false_eq_true, if_false]
    rw [List.mem_filter, List.any_eq_true]
    simp only [decide_eq_true_eq]

/-- C5 (witness): the amended theorem at concrete stores — in the SQLite
store where link 1 carries `python` and `tutorial`, browsing with filter
`["python", "tutorial"]` contains the link iff it carries both (it does);
in the DataFrame store, the `["python", "news"]` filter keeps the row
because one tag suffices. -/
theorem c5_witness :
    ((⟨1, "https://p", "P", "", 0, 0⟩ : LinkRow) ∈
        browse_section ⟨[⟨1, "https://p", "P", "", 0, 0⟩],
          [⟨1, "python"⟩, ⟨2, "tutorial"⟩], [(1, 1), (1, 2)], [], 2, 3⟩
          ["python", "tutorial"] ↔
      (⟨1, "https://p", "P", "", 0, 0⟩ : LinkRow) ∈
          ([⟨1, "https://p", "P", "", 0, 0⟩] : List LinkRow) ∧
        ∀ name ∈ ["python", "tutorial"],
          carriesTag ⟨[⟨1, "https://p", "P", "", 0, 0⟩],
            [⟨1, "python"⟩, ⟨2, "tutorial"⟩], [(1, 1), (1, 2)], [], 2, 3⟩ 1 name) ∧
    ((⟨1, "https://p", "P", "", ["python", "tutorial"], 0, 0, "User"⟩ : Entry) ∈
        aiTagFilter dfC5 ["python", "news"] ↔
      (⟨1, "https://p", "P", "", ["python", "tutorial"], 0, 0, "User"⟩ : Entry) ∈ dfC5 ∧
        ∃ t ∈ ["python", "news"],
          t ∈ (⟨1, "https://p", "P", "", ["python", "tutorial"], 0, 0, "User"⟩ : Entry).tags) :=
  ⟨c5_and_or_semantics.1 _ ["python", "tutorial"] _ (by decide) (by decide),
   c5_and_or_semantics.2 dfC5 ["python", "news"] _ (by decide)⟩

theorem tagInsertOrIgnore_link_tags (db : DB) (name : String) :
    (tagInsertOrIgnore db name).link_tags = db.link_tags := by
  unfold tagInsertOrIgnore
  split <;> rfl

theorem linkTagInsertOrIgnore_links (d : DB) (lid tid : Nat) :
    (linkTagInsertOrIgnore d lid tid).links = d.links := by
  unfold linkTagInsertOrIgnore
  split <;> rfl

theorem tagInsertOrIgnore_links (db : DB) (name : String) :
    (tagInsertOrIgnore db name).links = db.links := by
  unfold tagInsertOrIgnore
  split <;> rfl

theorem processTag_links (db : DB) (lid : Nat) (tag : String) :
    (processTag db lid tag).links = db.links := by
  unfold processTag
  rw [linkTagInsertOrIgnore_links, tagInsertOrIgnore_links]

theorem processTags_links (lid : Nat) :
    ∀ (tags : List String) (db : DB), (processTags db lid tags).links = db.links
  | [], _ => rfl
  | tag :: rest, db =>
    (processTags_links lid rest (processTag db lid tag)).trans (processTag_links db lid tag)

theorem tagWF_tagInsertOrIgnore (db : DB) (name : String) (h : TagWF db) :
    TagWF (tagInsertOrIgnore db name) := by
  unfold tagInsertOrIgnore
  split
  · exact h
  · constructor
    · intro t ht
      rcases List.mem_append.mp ht with h1 | h2
      · exact Nat.lt_succ_of_lt (h.idsLt t h1)
      · rw [List.mem_singleton.mp h2]
        exact Nat.lt_succ_self _
    · rw [List.map_append, List.nodup_append]
      refine ⟨h.idsNodup, List.nodup_singleton _, ?_⟩
      intro a ha hb
      obtain ⟨t, htm, rfl⟩ := List.mem_map.mp ha
      rw [List.map_singleton, List.mem_singleton] at hb
      exact absurd (hb ▸ h.idsLt t htm) (lt_irrefl _)

theorem tagWF_linkTagInsertOrIgnore (d : DB) (lid tid : Nat) (h : TagWF d) :
    TagWF (linkTagInsertOrIgnore d lid tid) := by
  unfold linkTagInsertOrIgnore
  split
  · exact h
  · exact ⟨h.idsLt, h.idsNodup⟩

theorem tagWF_processTag (db : DB) (lid : Nat) (tag : String) (h : TagWF db) :
    TagWF (processTag db lid tag) :=
  tagWF_linkTagInsertOrIgnore _ _ _ (tagWF_tagInsertOrIgnore _ _ h)

theorem mem_tagInsertOrIgnore {db : DB} {name : String} {t : TagRow}
    (ht : t ∈ (tagInsertOrIgnore db name).tags) : t ∈ db.tags ∨ t.name = name := by
  unfold tagInsertOrIgnore at ht
  split at ht
  · exact Or.inl ht
  · rcases List.mem_append.mp ht with h1 | h2
    · exact Or.inl h1
    · rw [List.mem_singleton.mp h2]
      exact Or.inr rfl

theorem tags_subset_tagInsertOrIgnore {db : DB} {name : String} :
    db.tags ⊆ (tagInsertOrIgnore db name).tags := by
  unfold tagInsertOrIgnore
  split
  · exact fun _ h => h
  · exact fun x h => List.mem_append_left _ h

theorem mem_linkTagInsertOrIgnore {d : DB} {lid tid : Nat} {q : Nat × Nat} :
    q ∈ (linkTagInsertOrIgnore d lid tid).link_tags ↔
      q ∈ d.link_tags ∨ q = (lid, tid) := by
  unfold linkTagInsertOrIgnore
  split
  · rename_i h
    constructor
    · exact Or.inl
    · rintro (hq | rfl)
      · exact hq
      · obtain ⟨p, hp, hpe⟩ := List.any_eq_true.mp h
        rw [decide_eq_true_eq] at hpe
        rwa [hpe] at hp
  · rw [List.mem_append, List.mem_singleton]

theorem linkTagInsertOrIgnore_tags (d : DB) (lid tid : Nat) :
    (linkTagInsertOrIgnore d lid tid).tags = d.tags := by
  unfold linkTagInsertOrIgnore
  split <;> rfl

theorem carriesTag_processTag {db : DB} {lid : Nat} {tag name : String} (h : TagWF db) :
    carriesTag (processTag db lid tag) lid name ↔
      carriesTag db lid name ∨ name = tag := by
  obtain ⟨t0, ht0, ht0n⟩ := tagLookup_tagInsertOrIgnore db tag
  have h1 : TagWF (tagInsertOrIgnore db tag) := tagWF_tagInsertOrIgnore db tag h
  have ht0m : t0 ∈ (tagInsertOrIgnore db tag).tags := List.mem_of_find?_eq_some ht0
  have hpt : processTag db lid tag =
      linkTagInsertOrIgnore (tagInsertOrIgnore db tag) lid t0.id := by
    simp only [processTag, ht0, Option.map_some', Option.getD_some]
  rw [hpt]
  constructor
  · rintro ⟨t, htm, hnm, hpair⟩
    rw [linkTagInsertOrIgnore_tags] at htm
    rcases mem_linkTagInsertOrIgnore.mp hpair with hold | hnew
    · rw [tagInsertOrIgnore_link_tags] at hold
      rcases mem_tagInsertOrIgnore htm with htdb | htn
      · exact Or.inl ⟨t, htdb, hnm, hold⟩
      · exact Or.inr (hnm ▸ htn)
    · have hid : t.id = t0.id := by
        have := congrArg Prod.snd hnew
        simpa using this
      have : t = t0 := List.inj_on_of_nodup_map h1.idsNodup htm ht0m hid
      exact Or.inr (hnm ▸ (this ▸ ht0n))
  · rintro (⟨t, htm, hnm, hpair⟩ | rfl)
    · refine ⟨t, ?_, hnm, ?_⟩
      · rw [linkTagInsertOrIgnore_tags]
        exact tags_subset_tagInsertOrIgnore htm
      · rw [mem_linkTagInsertOrIgnore, tagInsertOrIgnore_link_tags]
        exact Or.inl hpair
    · refine ⟨t0, ?_, ht0n, ?_⟩
      · rw [linkTagInsertOrIgnore_tags]
        exact ht0m
      · exact mem_linkTagInsertOrIgnore.mpr (Or.inr rfl)

theorem carriesTag_processTags {lid : Nat} {name : String} :
    ∀ (tags : List String) (db : DB), TagWF db →
      (carriesTag (processTags db lid tags) lid name ↔
        carriesTag db lid name ∨ name ∈ tags)
  | [], db, _ => by simp [processTags]
  | tag :: rest, db, h => by
    have step : processTags db lid (tag :: rest) =
        processTags (processTag db lid tag) lid rest := rfl
    rw [step, carriesTag_processTags rest _ (tagWF_processTag db lid tag h),
      carriesTag_processTag h, List.mem_cons]
    tauto

theorem embInsertOrReplace_links (d : DB) (lid : Nat) (v : Emb) :
    (embInsertOrReplace d lid v).links = d.links := rfl

theorem find?_filter_append_url (links : List LinkRow) (url : String) (r : LinkRow)
    (hr : r.url = url) :
    (links.filter (fun l => decide (l.url ≠ url)) ++ [r]).find?
      (fun l => decide (l.url = url)) = some r := by
  rw [List.find?_append]
  have hnone : (links.filter (fun l => decide (l.url ≠ url))).find?
      (fun l => decide (l.url = url)) = none := by
    rw [List.find?_eq_none]
    intro x hx
    have := List.of_mem_filter hx
    simp at this ⊢
    exact this
  rw [hnone]
  simp [List.find?, hr]

theorem save_link_eq_none (db : DB) (url title description : String) (tags : List String)
    (now : Nat) (hpos : db.nextLinkId ≠ 0) :
    save_link db url title description tags now none =
      processTags (insertOrReplaceLinks db url title description now).1
        db.nextLinkId tags := by
  simp only [save_link]
  rw [if_pos (show (insertOrReplaceLinks db url title description now).2 ≠ 0 from hpos),
    show (insertOrReplaceLinks db url title description now).2 = db.nextLinkId from rfl]

theorem save_link_eq_some (db : DB) (url title description : String) (tags : List String)
    (now : Nat) (v : Emb) (hpos : db.nextLinkId ≠ 0) :
    save_link db url title description tags now (some v) =
      embInsertOrReplace
        (processTags (insertOrReplaceLinks db url title description now).1
          db.nextLinkId tags)
        db.nextLinkId v := by
  simp only [save_link]
  rw [if_pos (show (insertOrReplaceLinks db url title description now).2 ≠ 0 from hpos),
    show (insertOrReplaceLinks db url title description now).2 = db.nextLinkId from rfl]

theorem save_link_links (db : DB) (url title description : String) (tags : List String)
    (now : Nat) (emb : Option Emb) :
    (save_link db url title description tags now emb).links =
      db.links.filter (fun l => decide (l.url ≠ url)) ++
        [⟨db.nextLinkId, url, title, description, now, now⟩] := by
  unfold save_link
  cases emb
  · exact processTags_links _ tags _
  · rw [embInsertOrReplace_links]
    exact processTags_links _ tags _

theorem getLinkByUrl_save_link (db : DB) (url title description : String)
    (tags : List String) (now : Nat) (emb : Option Emb) :
    getLinkByUrl (save_link db url title description tags now emb) url =
      some ⟨db.nextLinkId, url, title, description, now, now⟩ := by
  rw [getLinkByUrl, save_link_links]
  exact find?_filter_append_url _ _ _ rfl

theorem updateFirst_found_of_mem (p : α → Bool) (f : α → α) :
    ∀ l : List α, (∃ x ∈ l, p x = true) → (updateFirst p f l).2 = true
  | [], h => by simp at h
  | x :: xs, h => by
    unfold updateFirst
    by_cases hp : p x = true
    · rw [if_pos hp]
    · rw [if_neg hp]
      obtain ⟨y, hy, hpy⟩ := h
      rcases List.mem_cons.mp hy with rfl | hy'
      · exact absurd hpy hp
      · exact updateFirst_found_of_mem p f xs ⟨y, hy', hpy⟩

/-- C4: on every `save()` the link row for the saved url ends up
associated with exactly the tags of that call.  In the SQLite variant
this holds because `INSERT OR REPLACE` re-keys the row: the surviving
row has the fresh id, the loop links that id to exactly the supplied
names, and no earlier association can mention an id `AUTOINCREMENT` has
not yet produced (the old associations linger, but against the dead old
id).  In the DataFrame variant the row's tag list is overwritten with
the cleaned tags of the call and the action is reported as `updated`. -/
theorem c4_tags_fully_replaced :
    (∀ (db : DB) (url title description : String) (tags : List String) (now : Nat)
        (emb : Option Emb),
        TagWF db → (∀ p ∈ db.link_tags, p.1 < db.nextLinkId) → 1 ≤ db.nextLinkId →
        (∃ l ∈ db.links, l.url = url) →
        ∃ l', getLinkByUrl (save_link db url title description tags now emb) url =
            some l' ∧
          ∀ name, carriesTag (save_link db url title description tags now emb) l'.id name ↔
            name ∈ tags) ∧
    (∀ (df : List Entry) (url title description : String) (tags : List String)
        (source : String) (now : Nat),
        (∃ e ∈ df, e.url = url) →
        (save_link_ai df url title description tags source now).2 = "updated" ∧
        ∃ e ∈ (save_link_ai df url title description tags source now).1,
          e.url = url ∧ e.tags = cleanTags tags) := by
  constructor
  · intro db url title description tags now emb hwf hlt hpos _
    refine ⟨_, getLinkByUrl_save_link db url title description tags now emb, ?_⟩
    intro name
    have hpos' : db.nextLinkId ≠ 0 := Nat.one_le_iff_ne_zero.mp hpos
    have hbase : TagWF (insertOrReplaceLinks db url title description now).1 :=
      ⟨hwf.idsLt, hwf.idsNodup⟩
    have hmain :
        carriesTag (processTags (insertOrReplaceLinks db url title description now).1
            db.nextLinkId tags) db.nextLinkId name ↔ name ∈ tags := by
      rw [carriesTag_processTags tags _ hbase]
      constructor
      · rintro (⟨t, _, _, hpair⟩ | hmem)
        · exact absurd (hlt _ hpair) (lt_irrefl _)
        · exact hmem
      · exact Or.inr
    cases emb with
    | none =>
      rw [save_link_eq_none db url title description tags now hpos']
      exact hmain
    | some v =>
      rw [save_link_eq_some db url title description tags now v hpos']
      exact hmain
  · intro df url title description tags source now hex
    unfold save_link_ai
    obtain ⟨e0, he0, heu⟩ := hex
    have hfound := updateFirst_found_of_mem
      (fun e => decide (e.url = url))
      (fun e => { e with title := title,
                         description := if description = "" then "" else description,
                         tags := cleanTags tags, updated_at := now, source := source }) df
      ⟨e0, he0, by simpa using heu⟩
    rw [if_pos hfound]
    refine ⟨rfl, ?_⟩
    obtain ⟨x, _, hpx, hfx⟩ := updateFirst_found _ _ df hfound
    exact ⟨_, hfx, by simpa using hpx, rfl⟩

/-- C4 (witness): in the concrete store whose single link (url
`https://x`, id 1) carries `python`, re-saving that url with tags
`["news"]` yields a row for the url that carries exactly `news` — and in
the one-row DataFrame, re-saving `https://p` reports `updated` and
replaces the tag list. -/
theorem c4_witness :
    (∃ l', getLinkByUrl (save_link dbC4 "https://x" "T2" "D2" ["news"] 5 none)
        "https://x" = some l' ∧
      ∀ name, carriesTag (save_link dbC4 "https://x" "T2" "D2" ["news"] 5 none) l'.id name ↔
        name ∈ ["news"]) ∧
    ((save_link_ai dfC5 "https://p" "P2" "" ["news"] "User" 5).2 = "updated" ∧
      ∃ e ∈ (save_link_ai dfC5 "https://p" "P2" "" ["news"] "User" 5).1,
        e.url = "https://p" ∧ e.tags = cleanTags ["news"]) :=
  ⟨c4_tags_fully_replaced.1 dbC4 "https://x" "T2" "D2" ["news"] 5 none
      ⟨by decide, by decide⟩ (by decide) (by decide) (by decide),
   c4_tags_fully_replaced.2 dfC5 "https://p" "P2" "" ["news"] "User" 5 (by decide)⟩

theorem joinEmb_dbC7 :
    joinEmb dbC7 = [(1, [1, 0]), (2, [0, 1]), (3, [9/10, 1/10])] := rfl

/-- C7: the Semantic branch ranks exactly the links that have a stored
embedding (the SQL join excludes the others), in descending order of
cosine similarity to the query — the sort key `simKey` is a strictly
monotone transform of the cosine for a fixed query — with equal scores
tie-broken by ascending link id whenever the candidate rows arrive in
ascending id order (Python's sort is stable, and the join emits rows in
table-scan order); on the spec's example vectors the order is
`v1, v3, v2`. -/
theorem c7_rank_by_similarity :
    (∀ (qv : Emb) (cands : List (Nat × Emb)),
        cands.Pairwise (fun a b => a.1 < b.1) →
        (rank_by_similarity qv cands).Pairwise (fun a b =>
          simKey qv a.2 > simKey qv b.2 ∨
            (simKey qv a.2 = simKey qv b.2 ∧ a.1 < b.1))) ∧
    (∀ (qv : Emb) (cands : List (Nat × Emb)),
        List.Perm (rank_by_similarity qv cands) cands) ∧
    (∀ (db : DB) (lid : Nat),
        (∃ v, (lid, v) ∈ joinEmb db) ↔
          ∃ l ∈ db.links, l.id = lid ∧ (lookupEmb db lid).isSome) ∧
    ((semantic_search dbC7 [1, 0]).map Prod.fst = [1, 3, 2]) := by
  refine ⟨?_, ?_, ?_, ?_⟩
  · intro qv cands h
    have := insSort_pairwise (fun c => simKey qv c.2) Prod.fst cands h
    simpa using this
  · intro qv cands
    exact insSort_perm _ cands
  · intro db lid
    constructor
    · rintro ⟨v, hv⟩
      obtain ⟨l, hl, hf⟩ := List.mem_filterMap.mp hv
      obtain ⟨w, hw, hpair⟩ := Option.map_eq_some'.mp hf
      simp only [Prod.mk.injEq] at hpair
      obtain ⟨h1, _⟩ := hpair
      exact ⟨l, hl, h1, by rw [← h1, hw]; rfl⟩
    · rintro ⟨l, hl, hid, hs⟩
      obtain ⟨w, hw⟩ := Option.isSome_iff_exists.mp hs
      refine ⟨w, List.mem_filterMap.mpr ⟨l, hl, ?_⟩⟩
      rw [hid, hw]
      rfl
  · have k1 : simKey [1, 0] ([1, 0] : Emb) = 1 := by
      norm_num [simKey, dot, normSq]
    have k2 : simKey [1, 0] ([0, 1] : Emb) = 0 := by
      norm_num [simKey, dot, normSq]
    have k3 : simKey [1, 0] ([9/10, 1/10] : Emb) = 81/82 := by
      norm_num [simKey, dot, normSq]
    have g32 : decide (simKey [1, 0] ([9/10, 1/10] : Emb) >
        simKey [1, 0] ([0, 1] : Emb)) = true :=
      decide_eq_true (by rw [k3, k2]; norm_num)
    have g31 : decide (simKey [1, 0] ([9/10, 1/10] : Emb) >
        simKey [1, 0] ([1, 0] : Emb)) = false :=
      decide_eq_false (by rw [k3, k1]; norm_num)
    show (rank_by_similarity [1, 0] (joinEmb dbC7)).map Prod.fst = [1, 3, 2]
    rw [joinEmb_dbC7]
    unfold rank_by_similarity
    simp only [insSort, insStep, g32, g31, Bool.false_eq_true, Bool.true_eq_false,
      if_true, if_false, List.map_cons, List.map_nil]

/-- C7 (witness): the ranking theorem applied to the spec's example store:
the result of ranking the three embedded links is sorted by score with
id tie-break, is a permutation of the join rows, and link 4 — which has
no stored vector — is exactly the link missing from the join. -/
theorem c7_witness :
    ((rank_by_similarity [1, 0] (joinEmb dbC7)).Pairwise (fun a b =>
        simKey [1, 0] a.2 > simKey [1, 0] b.2 ∨
          (simKey [1, 0] a.2 = simKey [1, 0] b.2 ∧ a.1 < b.1))) ∧
    List.Perm (rank_by_similarity [1, 0] (joinEmb dbC7)) (joinEmb dbC7) ∧
    ((∃ v, (4, v) ∈ joinEmb dbC7) ↔
      ∃ l ∈ dbC7.links, l.id = 4 ∧ (lookupEmb dbC7 4).isSome) :=
  ⟨c7_rank_by_similarity.1 [1, 0] (joinEmb dbC7)
      (by rw [joinEmb_dbC7]; exact List.pairwise_cons.mpr ⟨by decide,
        List.pairwise_cons.mpr ⟨by decide, List.pairwise_singleton _ _⟩⟩),
   c7_rank_by_similarity.2.1 [1, 0] (joinEmb dbC7),
   c7_rank_by_similarity.2.2.1 dbC7 4⟩

end WebContent
